import Mathlib

/-!
Verification of the SMBIOS structure-table decoder
(osquery/tables/system/darwin/smbios_tables.cpp).

The decoder walks a byte blob of consecutive SMBIOS structures.  Each
structure starts with a packed 4-byte header (type, length, 16-bit
little-endian handle); after the declared formatted region comes an
unformatted trailing region ended by a double-zero byte pair.  The
embedding below mirrors the C++ loop in genSMBIOSTables: bytes are
naturals, the blob is a list, and the loop is structural recursion on a
fuel argument instantiated with the blob length (each emitted entry
advances the cursor by at least one byte, so that fuel is sufficient;
fuel-stability is proved below).
-/

namespace SMBIOS

/-- A byte buffer: the SMBIOS blob as a list of byte values. -/
abbrev Blob := List Nat

/-- SMBStructHeader: the packed 4-byte structure header. -/
structure SMBStructHeader where
  type : Nat
  length : Nat
  handle : Nat
deriving Repr, DecidableEq

/-- Read the packed header at offset `off`: byte 0 is the type, byte 1 the
formatted length, bytes 2-3 the little-endian handle. -/
def readHeader (blob : Blob) (off : Nat) : SMBStructHeader :=
  { type := blob.getD off 0
    length := blob.getD (off + 1) 0
    handle := blob.getD (off + 2) 0 + 256 * blob.getD (off + 3) 0 }

/-- kSMBIOSTypeDescriptions: the fixed type-code registry. -/
def kSMBIOSTypeDescriptions : List (Nat × String) :=
  [(0, "BIOS Information"),
   (1, "System Information"),
   (2, "Base Board or Module Information"),
   (3, "System Enclosure or Chassis"),
   (4, "Processor Information"),
   (5, "Memory Controller Information"),
   (6, "Memory Module Information"),
   (7, "Cache Information"),
   (8, "Port Connector Information"),
   (9, "System Slots"),
   (10, "On Board Devices Information"),
   (11, "OEM Strings"),
   (12, "System Configuration Options"),
   (13, "BIOS Language Information"),
   (14, "Group Associations"),
   (15, "System Event Log"),
   (16, "Physical Memory Array"),
   (17, "Memory Device"),
   (18, "32-bit Memory Error Information"),
   (19, "Memory Array Mapped Address"),
   (20, "Memory Device Mapped Address"),
   (21, "Built-in Pointing Device"),
   (22, "Portable Battery"),
   (23, "System Reset"),
   (24, "Hardware Security"),
   (25, "System Power Controls"),
   (26, "Voltage Probe"),
   (27, "Cooling Device"),
   (28, "Temperature Probe"),
   (29, "Electrical Current Probe"),
   (30, "Out-of-Band Remote Access"),
   (31, "Boot Integrity Services"),
   (32, "System Boot Information"),
   (33, "64-bit Memory Error Information"),
   (34, "Management Device"),
   (35, "Management Device Component"),
   (36, "Management Device Threshold Data"),
   (37, "Memory Channel"),
   (38, "IPMI Device Information"),
   (39, "System Power Supply"),
   (40, "Additional Information"),
   (41, "Onboard Devices Extended Info"),
   (126, "Inactive"),
   (127, "End-of-Table"),
   (130, "Memory SPD Data"),
   (131, "OEM Processor Type"),
   (132, "OEM Processor Bus Speed")]

/-- Registry lookup: the map-count/map-at pair in the source. -/
def descLookup (t : Nat) : Option String :=
  (kSMBIOSTypeDescriptions.find? (fun p => p.1 == t)).map (fun p => p.2)

/-- Hexadecimal digit character for a value below 16. -/
def hexDigit (n : Nat) : Char :=
  if n < 10 then Char.ofNat (48 + n) else Char.ofNat (97 + (n - 10))

/-- Fixed-width lowercase hexadecimal rendering of a natural number. -/
def toHexFixed (w n : Nat) : String :=
  String.mk ((List.range w).map (fun i => hexDigit (n / 16 ^ (w - 1 - i) % 16)))

/-- Modelled from the spec: the md5 digest utility (osquery/core/md5.h is not
part of the decoder source).  The spec requires only a stateless, deterministic
pure function from the digested bytes to a fixed-width hexadecimal string, so
the digest is modelled as a 128-bit fold rendered as 32 hex characters. -/
def md5digest (bytes : List Nat) : String :=
  toHexFixed 32 (bytes.foldl (fun h b => (h * 257 + b + 1) % 2 ^ 128) 0)

/-- The bytes digested for one entry: `total` bytes starting at `off`. -/
def sliceBytes (blob : Blob) (off total : Nat) : List Nat :=
  (blob.drop off).take total

/-- One decoded row of the smbios_tables table. -/
structure DecodedEntry where
  number : Nat
  type : Nat
  description : Option String
  handle : Nat
  header_size : Nat
  offset : Nat
  size : Nat
  md5 : String
deriving Repr, DecidableEq, Inhabited

/-- The trailing-region scan (the inner for-loop): from position `p`,
repeatedly examine the byte pair at the cursor while a full header width of
buffer remains; a 0x00 0x00 pair ends the scan two bytes past itself. -/
def scanEndF (fuel : Nat) (blob : Blob) (p : Nat) : Nat :=
  match fuel with
  | 0 => p
  | fuel + 1 =>
    if p + 4 ≤ blob.length then
      if blob.getD p 0 = 0 ∧ blob.getD (p + 1) 0 = 0 then p + 2
      else scanEndF fuel blob (p + 1)
    else p

/-- The scan with enough fuel for the whole blob. -/
def scanEnd (blob : Blob) (p : Nat) : Nat :=
  scanEndF blob.length blob p

/-- Positions at which the scan examines a byte pair (instrumentation of the
inner for-loop's body entry). -/
def scanChecksF (fuel : Nat) (blob : Blob) (p : Nat) : List Nat :=
  match fuel with
  | 0 => []
  | fuel + 1 =>
    if p + 4 ≤ blob.length then
      if blob.getD p 0 = 0 ∧ blob.getD (p + 1) 0 = 0 then [p]
      else p :: scanChecksF fuel blob (p + 1)
    else []

/-- Pair-examination positions with enough fuel for the whole blob. -/
def scanChecks (blob : Blob) (p : Nat) : List Nat :=
  scanChecksF blob.length blob p

/-- Byte indices the scan actually reads; the second byte of a pair is read
only when the first byte was zero (the && short-circuit in the source). -/
def scanReadsF (fuel : Nat) (blob : Blob) (p : Nat) : List Nat :=
  match fuel with
  | 0 => []
  | fuel + 1 =>
    if p + 4 ≤ blob.length then
      if blob.getD p 0 = 0 then
        if blob.getD (p + 1) 0 = 0 then [p, p + 1]
        else p :: (p + 1) :: scanReadsF fuel blob (p + 1)
      else p :: scanReadsF fuel blob (p + 1)
    else []

/-- The entry built for the structure at `table` whose scan ended at `next`. -/
def mkEntry (blob : Blob) (table idx : Nat) (hdr : SMBStructHeader)
    (next : Nat) : DecodedEntry :=
  { number := idx
    type := hdr.type
    description := descLookup hdr.type
    handle := hdr.handle
    header_size := hdr.length
    offset := table
    size := next - table
    md5 := md5digest (sliceBytes blob table (next - table)) }

/-- The outer while-loop of genSMBIOSTables: while a full header fits, read
the header; stop if the declared length runs past the end of the blob;
otherwise scan for the end of the trailing region, emit the entry and
continue from the scan end. -/
def genTablesF (fuel : Nat) (blob : Blob) (table idx : Nat) :
    List DecodedEntry :=
  match fuel with
  | 0 => []
  | fuel + 1 =>
    if table + 4 ≤ blob.length then
      let hdr := readHeader blob table
      if blob.length < table + hdr.length then []
      else
        let next := scanEnd blob (table + hdr.length)
        mkEntry blob table idx hdr next :: genTablesF fuel blob next (idx + 1)
    else []

/-- genSMBIOSTables: decode the whole blob from offset 0. -/
def genSMBIOSTables (blob : Blob) : List DecodedEntry :=
  genTablesF blob.length blob 0 0

/-- Byte indices read by the decoder (instrumentation): the four header
bytes, the scan reads, and the bytes digested for the emitted entry. -/
def genReadsF (fuel : Nat) (blob : Blob) (table : Nat) : List Nat :=
  match fuel with
  | 0 => []
  | fuel + 1 =>
    if table + 4 ≤ blob.length then
      let hdr := readHeader blob table
      [table, table + 1, table + 2, table + 3] ++
        (if blob.length < table + hdr.length then []
         else
           let next := scanEnd blob (table + hdr.length)
           scanReadsF blob.length blob (table + hdr.length) ++
             (List.range (next - table)).map (fun i => table + i) ++
             genReadsF fuel blob next)
    else []

/-- All byte indices read while decoding the whole blob. -/
def genSMBIOSReads (blob : Blob) : List Nat :=
  genReadsF blob.length blob 0

/-- The source's out-parameter form: rows are pushed onto the caller's
`results` vector. -/
def genTablesIntoF (fuel : Nat) (blob : Blob) (table idx : Nat)
    (results : List DecodedEntry) : List DecodedEntry :=
  match fuel with
  | 0 => results
  | fuel + 1 =>
    if table + 4 ≤ blob.length then
      let hdr := readHeader blob table
      if blob.length < table + hdr.length then results
      else
        let next := scanEnd blob (table + hdr.length)
        genTablesIntoF fuel blob next (idx + 1)
          (results ++ [mkEntry blob table idx hdr next])
    else results

/-- Decoding the whole blob into a pre-existing results vector. -/
def genSMBIOSTablesInto (blob : Blob) (results : List DecodedEntry) :
    List DecodedEntry :=
  genTablesIntoF blob.length blob 0 0 results

/-! Unfolding equations (one step of each recursion). -/

lemma scanEndF_zero (blob : Blob) (p : Nat) : scanEndF 0 blob p = p := rfl

lemma scanEndF_succ (fuel : Nat) (blob : Blob) (p : Nat) :
    scanEndF (fuel + 1) blob p =
      if p + 4 ≤ blob.length then
        if blob.getD p 0 = 0 ∧ blob.getD (p + 1) 0 = 0 then p + 2
        else scanEndF fuel blob (p + 1)
      else p := rfl

lemma scanChecksF_succ (fuel : Nat) (blob : Blob) (p : Nat) :
    scanChecksF (fuel + 1) blob p =
      if p + 4 ≤ blob.length then
        if blob.getD p 0 = 0 ∧ blob.getD (p + 1) 0 = 0 then [p]
        else p :: scanChecksF fuel blob (p + 1)
      else [] := rfl

lemma scanReadsF_succ (fuel : Nat) (blob : Blob) (p : Nat) :
    scanReadsF (fuel + 1) blob p =
      if p + 4 ≤ blob.length then
        if blob.getD p 0 = 0 then
          if blob.getD (p + 1) 0 = 0 then [p, p + 1]
          else p :: (p + 1) :: scanReadsF fuel blob (p + 1)
        else p :: scanReadsF fuel blob (p + 1)
      else [] := rfl

lemma genTablesF_succ (fuel : Nat) (blob : Blob) (table idx : Nat) :
    genTablesF (fuel + 1) blob table idx =
      if table + 4 ≤ blob.length then
        if blob.length < table + (readHeader blob table).length then []
        else
          mkEntry blob table idx (readHeader blob table)
              (scanEnd blob (table + (readHeader blob table).length)) ::
            genTablesF fuel blob
              (scanEnd blob (table + (readHeader blob table).length)) (idx + 1)
      else [] := rfl

lemma genReadsF_succ (fuel : Nat) (blob : Blob) (table : Nat) :
    genReadsF (fuel + 1) blob table =
      if table + 4 ≤ blob.length then
        [table, table + 1, table + 2, table + 3] ++
          (if blob.length < table + (readHeader blob table).length then []
           else
             scanReadsF blob.length blob (table + (readHeader blob table).length) ++
               (List.range
                   (scanEnd blob (table + (readHeader blob table).length) - table)).map
                 (fun i => table + i) ++
               genReadsF fuel blob
                 (scanEnd blob (table + (readHeader blob table).length)))
      else [] := rfl

lemma genTablesIntoF_succ (fuel : Nat) (blob : Blob) (table idx : Nat)
    (results : List DecodedEntry) :
    genTablesIntoF (fuel + 1) blob table idx results =
      if table + 4 ≤ blob.length then
        if blob.length < table + (readHeader blob table).length then results
        else
          genTablesIntoF fuel blob
            (scanEnd blob (table + (readHeader blob table).length)) (idx + 1)
            (results ++
              [mkEntry blob table idx (readHeader blob table)
                  (scanEnd blob (table + (readHeader blob table).length))])
      else results := rfl

/-! Basic facts about the trailing-region scan. -/

lemma scanEndF_ge (blob : Blob) : ∀ fuel p, p ≤ scanEndF fuel blob p := by
  intro fuel
  induction fuel with
  | zero => intro p; exact Nat.le_refl p
  | succ fuel ih =>
    intro p
    rw [scanEndF_succ]
    by_cases h4 : p + 4 ≤ blob.length
    · rw [if_pos h4]
      by_cases hz : blob.getD p 0 = 0 ∧ blob.getD (p + 1) 0 = 0
      · rw [if_pos hz]; omega
      · rw [if_neg hz]
        exact Nat.le_trans (by omega) (ih (p + 1))
    · rw [if_neg h4]

lemma scanEndF_le (blob : Blob) :
    ∀ fuel p, p ≤ blob.length → scanEndF fuel blob p ≤ blob.length := by
  intro fuel
  induction fuel with
  | zero => intro p hp; exact hp
  | succ fuel ih =>
    intro p hp
    rw [scanEndF_succ]
    by_cases h4 : p + 4 ≤ blob.length
    · rw [if_pos h4]
      by_cases hz : blob.getD p 0 = 0 ∧ blob.getD (p + 1) 0 = 0
      · rw [if_pos hz]; omega
      · rw [if_neg hz]; exact ih (p + 1) (by omega)
    · rw [if_neg h4]; exact hp

lemma scanEndF_lt (blob : Blob) (fuel p : Nat) (h : p + 4 ≤ blob.length) :
    p < scanEndF (fuel + 1) blob p := by
  rw [scanEndF_succ, if_pos h]
  by_cases hz : blob.getD p 0 = 0 ∧ blob.getD (p + 1) 0 = 0
  · rw [if_pos hz]; omega
  · rw [if_neg hz]
    exact Nat.lt_of_lt_of_le (by omega) (scanEndF_ge blob fuel (p + 1))

lemma scanEnd_ge (blob : Blob) (p : Nat) : p ≤ scanEnd blob p :=
  scanEndF_ge blob blob.length p

lemma scanEnd_le (blob : Blob) (p : Nat) (hp : p ≤ blob.length) :
    scanEnd blob p ≤ blob.length :=
  scanEndF_le blob blob.length p hp

lemma lt_scanEnd (blob : Blob) (table L : Nat) (h : table + 4 ≤ blob.length) :
    table < scanEnd blob (table + L) := by
  cases L with
  | zero =>
    obtain ⟨k, hk⟩ : ∃ k, blob.length = k + 1 := ⟨blob.length - 1, by omega⟩
    rw [Nat.add_zero]
    show table < scanEndF blob.length blob table
    rw [hk]
    exact scanEndF_lt blob k table h
  | succ l =>
    exact Nat.lt_of_lt_of_le (by omega) (scanEnd_ge blob (table + (l + 1)))

lemma scanEndF_stop (blob : Blob) (fuel p : Nat) (h : blob.length < p + 4) :
    scanEndF fuel blob p = p := by
  cases fuel with
  | zero => rfl
  | succ fuel => rw [scanEndF_succ, if_neg (by omega)]

lemma scanEndF_no_term (blob : Blob) :
    ∀ fuel p, blob.length - p ≤ fuel →
      (∀ q, p ≤ q → q + 4 ≤ blob.length →
        ¬(blob.getD q 0 = 0 ∧ blob.getD (q + 1) 0 = 0)) →
      scanEndF fuel blob p = max p (blob.length - 3) := by
  intro fuel
  induction fuel with
  | zero => intro p hf hno; rw [scanEndF_zero]; omega
  | succ fuel ih =>
    intro p hf hno
    rw [scanEndF_succ]
    by_cases h4 : p + 4 ≤ blob.length
    · rw [if_pos h4, if_neg (hno p (Nat.le_refl p) h4)]
      rw [ih (p + 1) (by omega) (fun q hq hq4 => hno q (by omega) hq4)]
      omega
    · rw [if_neg h4]; omega

lemma scanEndF_stable (blob : Blob) :
    ∀ fuel p, blob.length - p ≤ fuel →
      scanEndF (fuel + 1) blob p = scanEndF fuel blob p := by
  intro fuel
  induction fuel with
  | zero =>
    intro p h
    rw [scanEndF_succ, if_neg (show ¬p + 4 ≤ blob.length by omega), scanEndF_zero]
  | succ fuel ih =>
    intro p h
    conv_lhs => rw [scanEndF_succ]
    conv_rhs => rw [scanEndF_succ]
    by_cases h4 : p + 4 ≤ blob.length
    · rw [if_pos h4, if_pos h4]
      by_cases hz : blob.getD p 0 = 0 ∧ blob.getD (p + 1) 0 = 0
      · rw [if_pos hz, if_pos hz]
      · rw [if_neg hz, if_neg hz, ih (p + 1) (by omega)]
    · rw [if_neg h4, if_neg h4]

/-! Facts about the entry-producing loop. -/

lemma genTablesF_entry_props (blob : Blob) :
    ∀ fuel table idx, ∀ e ∈ genTablesF fuel blob table idx,
      e.offset + e.size ≤ blob.length ∧ e.header_size ≤ e.size ∧
        1 ≤ e.size ∧ e.description = descLookup e.type := by
  intro fuel
  induction fuel with
  | zero => intro table idx e he; simp [genTablesF] at he
  | succ fuel ih =>
    intro table idx e he
    rw [genTablesF_succ] at he
    by_cases h4 : table + 4 ≤ blob.length
    · rw [if_pos h4] at he
      by_cases hbad : blob.length < table + (readHeader blob table).length
      · rw [if_pos hbad] at he; simp at he
      · rw [if_neg hbad] at he
        rcases List.mem_cons.mp he with he | he
        · subst he
          have hge := scanEnd_ge blob (table + (readHeader blob table).length)
          have hle := scanEnd_le blob (table + (readHeader blob table).length)
            (by omega)
          have hlt := lt_scanEnd blob table (readHeader blob table).length h4
          refine ⟨?_, ?_, ?_, ?_⟩ <;> simp only [mkEntry] <;> omega
        · exact ih _ _ e he
    · rw [if_neg h4] at he; simp at he

lemma genTablesF_first_offset (blob : Blob) (fuel table idx : Nat)
    (e : DecodedEntry) (rest : List DecodedEntry)
    (h : genTablesF fuel blob table idx = e :: rest) : e.offset = table := by
  cases fuel with
  | zero => simp [genTablesF] at h
  | succ fuel =>
    rw [genTablesF_succ] at h
    by_cases h4 : table + 4 ≤ blob.length
    · rw [if_pos h4] at h
      by_cases hbad : blob.length < table + (readHeader blob table).length
      · rw [if_pos hbad] at h; simp at h
      · rw [if_neg hbad] at h
        have := (List.cons.injEq _ _ _ _).mp h
        rw [← this.1]
        rfl
    · rw [if_neg h4] at h; simp at h

lemma genTablesF_chain (blob : Blob) :
    ∀ fuel table idx,
      List.Chain' (fun a b => b.offset = a.offset + a.size)
        (genTablesF fuel blob table idx) := by
  intro fuel
  induction fuel with
  | zero => intro table idx; simp [genTablesF]
  | succ fuel ih =>
    intro table idx
    rw [genTablesF_succ]
    by_cases h4 : table + 4 ≤ blob.length
    · rw [if_pos h4]
      by_cases hbad : blob.length < table + (readHeader blob table).length
      · rw [if_pos hbad]; exact List.chain'_nil
      · rw [if_neg hbad]
        refine List.Chain'.cons' (ih _ _) ?_
        intro y hy
        cases hgen : genTablesF fuel blob
            (scanEnd blob (table + (readHeader blob table).length)) (idx + 1) with
        | nil => rw [hgen] at hy; simp at hy
        | cons a rest =>
          rw [hgen] at hy
          simp only [List.head?_cons, Option.mem_def, Option.some.injEq] at hy
          subst hy
          have hoff := genTablesF_first_offset blob fuel _ (idx + 1) a rest hgen
          have hge := scanEnd_ge blob (table + (readHeader blob table).length)
          simp only [mkEntry]
          omega
    · rw [if_neg h4]; exact List.chain'_nil

lemma genTablesF_length (blob : Blob) :
    ∀ fuel table idx,
      (genTablesF fuel blob table idx).length ≤ blob.length - table := by
  intro fuel
  induction fuel with
  | zero => intro table idx; simp [genTablesF]
  | succ fuel ih =>
    intro table idx
    rw [genTablesF_succ]
    by_cases h4 : table + 4 ≤ blob.length
    · rw [if_pos h4]
      by_cases hbad : blob.length < table + (readHeader blob table).length
      · rw [if_pos hbad]; simp
      · rw [if_neg hbad]
        simp only [List.length_cons]
        have hlt := lt_scanEnd blob table (readHeader blob table).length h4
        have := ih (scanEnd blob (table + (readHeader blob table).length)) (idx + 1)
        omega
    · rw [if_neg h4]; simp

lemma genTablesF_stable (blob : Blob) :
    ∀ fuel table idx, blob.length - table ≤ fuel →
      genTablesF (fuel + 1) blob table idx = genTablesF fuel blob table idx := by
  intro fuel
  induction fuel with
  | zero =>
    intro table idx h
    rw [genTablesF_succ, if_neg (show ¬table + 4 ≤ blob.length by omega)]
    rfl
  | succ fuel ih =>
    intro table idx h
    conv_lhs => rw [genTablesF_succ]
    conv_rhs => rw [genTablesF_succ]
    by_cases h4 : table + 4 ≤ blob.length
    · rw [if_pos h4, if_pos h4]
      by_cases hbad : blob.length < table + (readHeader blob table).length
      · rw [if_pos hbad, if_pos hbad]
      · rw [if_neg hbad, if_neg hbad]
        have hlt := lt_scanEnd blob table (readHeader blob table).length h4
        rw [ih _ (idx + 1) (by omega)]
    · rw [if_neg h4, if_neg h4]

lemma genTablesIntoF_eq (blob : Blob) :
    ∀ fuel table idx acc,
      genTablesIntoF fuel blob table idx acc =
        acc ++ genTablesF fuel blob table idx := by
  intro fuel
  induction fuel with
  | zero => intro table idx acc; simp [genTablesIntoF, genTablesF]
  | succ fuel ih =>
    intro table idx acc
    rw [genTablesIntoF_succ, genTablesF_succ]
    by_cases h4 : table + 4 ≤ blob.length
    · rw [if_pos h4, if_pos h4]
      by_cases hbad : blob.length < table + (readHeader blob table).length
      · rw [if_pos hbad, if_pos hbad, List.append_nil]
      · rw [if_neg hbad, if_neg hbad, ih]
        simp
    · rw [if_neg h4, if_neg h4, List.append_nil]

/-! Facts about the instrumented byte reads. -/

lemma scanReadsF_lt (blob : Blob) :
    ∀ fuel p, ∀ i ∈ scanReadsF fuel blob p, i < blob.length := by
  intro fuel
  induction fuel with
  | zero => intro p i hi; simp [scanReadsF] at hi
  | succ fuel ih =>
    intro p i hi
    rw [scanReadsF_succ] at hi
    by_cases h4 : p + 4 ≤ blob.length
    · rw [if_pos h4] at hi
      by_cases hz0 : blob.getD p 0 = 0
      · rw [if_pos hz0] at hi
        by_cases hz1 : blob.getD (p + 1) 0 = 0
        · rw [if_pos hz1] at hi
          simp only [List.mem_cons, List.not_mem_nil, or_false] at hi
          omega
        · rw [if_neg hz1] at hi
          rcases List.mem_cons.mp hi with hi | hi
          · omega
          rcases List.mem_cons.mp hi with hi | hi
          · omega
          · exact ih (p + 1) i hi
      · rw [if_neg hz0] at hi
        rcases List.mem_cons.mp hi with hi | hi
        · omega
        · exact ih (p + 1) i hi
    · rw [if_neg h4] at hi; simp at hi

lemma scanChecksF_le (blob : Blob) :
    ∀ fuel p, ∀ q ∈ scanChecksF fuel blob p, q + 4 ≤ blob.length := by
  intro fuel
  induction fuel with
  | zero => intro p q hq; simp [scanChecksF] at hq
  | succ fuel ih =>
    intro p q hq
    rw [scanChecksF_succ] at hq
    by_cases h4 : p + 4 ≤ blob.length
    · rw [if_pos h4] at hq
      by_cases hz : blob.getD p 0 = 0 ∧ blob.getD (p + 1) 0 = 0
      · rw [if_pos hz] at hq
        simp only [List.mem_singleton] at hq
        omega
      · rw [if_neg hz] at hq
        rcases List.mem_cons.mp hq with hq | hq
        · omega
        · exact ih (p + 1) q hq
    · rw [if_neg h4] at hq; simp at hq

lemma genReadsF_lt (blob : Blob) :
    ∀ fuel table, ∀ i ∈ genReadsF fuel blob table, i < blob.length := by
  intro fuel
  induction fuel with
  | zero => intro table i hi; simp [genReadsF] at hi
  | succ fuel ih =>
    intro table i hi
    rw [genReadsF_succ] at hi
    by_cases h4 : table + 4 ≤ blob.length
    · rw [if_pos h4] at hi
      rcases List.mem_append.mp hi with hi | hi
      · simp only [List.mem_cons, List.not_mem_nil, or_false] at hi
        omega
      · by_cases hbad : blob.length < table + (readHeader blob table).length
        · rw [if_pos hbad] at hi; simp at hi
        · rw [if_neg hbad] at hi
          have hle := scanEnd_le blob (table + (readHeader blob table).length)
            (by omega)
          rcases List.mem_append.mp hi with hi | hi
          · rcases List.mem_append.mp hi with hi | hi
            · exact scanReadsF_lt blob blob.length _ i hi
            · rcases List.mem_map.mp hi with ⟨j, hj, hij⟩
              rw [List.mem_range] at hj
              omega
          · exact ih _ i hi
    · rw [if_neg h4] at hi; simp at hi

/-! The registry lookup succeeds exactly on the registered type codes. -/

lemma lookup_isSome (t : Nat) :
    ∀ l : List (Nat × String),
      ((l.find? (fun p => p.1 == t)).map (fun p => p.2)).isSome = true ↔
        t ∈ l.map Prod.fst := by
  intro l
  induction l with
  | nil => simp
  | cons a l ih =>
    by_cases h : a.1 = t
    · rw [List.find?_cons_of_pos _ (by simp [h])]
      simp [h]
    · rw [List.find?_cons_of_neg _ (by simp [h])]
      simp only [List.map_cons, List.mem_cons, ih]
      constructor
      · intro hm; exact Or.inr hm
      · intro hm
        rcases hm with hm | hm
        · exact absurd hm.symm h
        · exact hm

/-! Sample blobs used as concrete instances below. -/

/-- Two well-formed structures: each a 4-byte header followed by a double-zero
terminator, except that the second terminator falls in the unscanned tail. -/
def bTwo : Blob := [1, 4, 0, 0, 0, 0, 2, 4, 0, 0, 0, 0]

/-- Six zero bytes: a header declaring formatted_length 0. -/
def bZeros : Blob := [0, 0, 0, 0, 0, 0]

/-- The end-of-table structure from the spec's test vector: header
type 127, formatted_length 4, handle 0, then two zero bytes. -/
def bEot : Blob := [127, 4, 0, 0, 0, 0]

/-- A four-byte blob whose header declares formatted_length 0 and whose
bytes contain no double-zero pair in scanning range. -/
def bShort : Blob := [1, 0, 0, 0]

/-- A structure of unregistered type 200. -/
def bUnreg : Blob := [200, 4, 0, 0]

/-- A header declaring formatted_length 200, far past the 4-byte blob. -/
def bBad : Blob := [0, 200, 0, 0]

/-- Seven bytes with no zero pair anywhere. -/
def bFives : Blob := [5, 5, 5, 5, 5, 5, 5]

/-! The claims. -/

/-- Claim C1: for every input blob, every byte index the decoder reads lies
inside the blob, and every emitted entry satisfies
offset + total_size ≤ blob length. -/
theorem c1_all_reads_in_bounds (blob : Blob) :
    (∀ i ∈ genSMBIOSReads blob, i < blob.length) ∧
    (∀ e ∈ genSMBIOSTables blob, e.offset + e.size ≤ blob.length) := by
  constructor
  · intro i hi
    exact genReadsF_lt blob blob.length 0 i hi
  · intro e he
    exact (genTablesF_entry_props blob blob.length 0 0 e he).1

/-- Witness for C1: instantiated on the two-structure blob. -/
theorem c1_witness :
    (0 : Nat) < bTwo.length ∧
      ((genSMBIOSTables bTwo).getD 0 default).offset +
          ((genSMBIOSTables bTwo).getD 0 default).size ≤ bTwo.length :=
  ⟨(c1_all_reads_in_bounds bTwo).1 0 (by decide),
   (c1_all_reads_in_bounds bTwo).2 ((genSMBIOSTables bTwo).getD 0 default)
     (by decide)⟩

/-- Claim C2: if the header read at the current offset declares a
formatted_length running past the blob end, iteration stops there with no
further entry; in particular such a header at offset 0 yields zero entries.
No error is possible: the decoder is a total function. -/
theorem c2_malformed_header_stops (blob : Blob) (table idx fuel : Nat)
    (h4 : table + 4 ≤ blob.length)
    (hbad : blob.length < table + (readHeader blob table).length) :
    genTablesF (fuel + 1) blob table idx = [] ∧
      (table = 0 → genSMBIOSTables blob = []) := by
  constructor
  · rw [genTablesF_succ, if_pos h4, if_pos hbad]
  · intro h0
    subst h0
    obtain ⟨k, hk⟩ : ∃ k, blob.length = k + 1 := ⟨blob.length - 1, by omega⟩
    show genTablesF blob.length blob 0 0 = []
    rw [hk, genTablesF_succ, if_pos h4, if_pos hbad]

/-- Witness for C2: a 4-byte blob whose header declares length 200. -/
theorem c2_witness :
    genTablesF 1 bBad 0 0 = [] ∧ (0 = 0 → genSMBIOSTables bBad = []) :=
  c2_malformed_header_stops bBad 0 0 0 (by decide) (by decide)

/-- Claim C3: consecutive emitted entries are contiguous: the offset of
entry i+1 equals the offset of entry i plus its total size. -/
theorem c3_entries_contiguous (blob : Blob) (i : Nat)
    (h : i + 1 < (genSMBIOSTables blob).length) :
    ((genSMBIOSTables blob).getD (i + 1) default).offset =
      ((genSMBIOSTables blob).getD i default).offset +
        ((genSMBIOSTables blob).getD i default).size := by
  have hchain : List.Chain'
      (fun a b => b.offset = a.offset + a.size) (genSMBIOSTables blob) :=
    genTablesF_chain blob blob.length 0 0
  rw [List.chain'_iff_get] at hchain
  have h2 := hchain i (by omega)
  rw [List.getD_eq_getElem _ _ h,
    List.getD_eq_getElem _ _ (show i < (genSMBIOSTables blob).length by omega)]
  simpa [List.get_eq_getElem] using h2

/-- Witness for C3: the two entries of the two-structure blob. -/
theorem c3_witness :
    ((genSMBIOSTables bTwo).getD (0 + 1) default).offset =
      ((genSMBIOSTables bTwo).getD 0 default).offset +
        ((genSMBIOSTables bTwo).getD 0 default).size :=
  c3_entries_contiguous bTwo 0 (by decide)

/-- Counterexample to claim C4: on the all-zero 6-byte blob the decoder
emits entries whose header_size is 0 < 4 (and whose total size is 2 < 4);
the claimed invariant total_size ≥ header_size ≥ 4 fails. -/
theorem c4_counterexample :
    ¬(∀ e ∈ genSMBIOSTables bZeros,
        e.header_size ≤ e.size ∧ 4 ≤ e.header_size) := by decide

/-- Claim C4 as amended: every emitted entry satisfies
total_size ≥ header_size; the lower bound of 4 on header_size does not hold
(the iterator never validates the declared formatted_length downward). -/
theorem c4_amended_size_ge_header (blob : Blob) :
    ∀ e ∈ genSMBIOSTables blob, e.header_size ≤ e.size := by
  intro e he
  exact (genTablesF_entry_props blob blob.length 0 0 e he).2.1

/-- Witness for C4 (amended): the first entry of the two-structure blob. -/
theorem c4_witness :
    ((genSMBIOSTables bTwo).getD 0 default).header_size ≤
      ((genSMBIOSTables bTwo).getD 0 default).size :=
  c4_amended_size_ge_header bTwo ((genSMBIOSTables bTwo).getD 0 default)
    (by decide)

/-- Counterexample to claim C5: the 6-byte blob 127,4,0,0 followed by two
zero bytes does not yield an entry of size 6 — the scan never reaches the
trailing zero pair (position 4 has fewer than 4 bytes beyond it). -/
theorem c5_counterexample :
    ¬((genSMBIOSTables bEot).length = 1 ∧
        ∀ e ∈ genSMBIOSTables bEot,
          e.type = 127 ∧ e.description = some "End-of-Table" ∧
            e.header_size = 4 ∧ e.size = 6) := by decide

/-- Claim C5 as amended: that blob yields exactly one entry with type 127,
description End-of-Table, header_size 4, and size 4 (not 6): the two
trailing zero bytes lie in the lost tail and are not consumed. -/
theorem c5_amended_eot_blob :
    (genSMBIOSTables bEot).length = 1 ∧
      ((genSMBIOSTables bEot).getD 0 default).type = 127 ∧
      ((genSMBIOSTables bEot).getD 0 default).description =
        some "End-of-Table" ∧
      ((genSMBIOSTables bEot).getD 0 default).header_size = 4 ∧
      ((genSMBIOSTables bEot).getD 0 default).size = 4 := by decide

/-- Claim C6: the trailing scan examines a byte pair only at positions with
at least a header width of buffer beyond them; a double-zero pair ends the
scan two bytes past itself; running out of room stops the scan at that
boundary, with the no-terminator scan end characterized exactly; and a
cursor with fewer than 4 bytes remaining yields no further entries, so a
short tail residue is excluded from the output entirely. -/
theorem c6_trailing_scan (blob : Blob) (p : Nat) :
    (∀ q ∈ scanChecks blob p, q + 4 ≤ blob.length) ∧
    (p + 4 ≤ blob.length → blob.getD p 0 = 0 → blob.getD (p + 1) 0 = 0 →
      scanEnd blob p = p + 2) ∧
    (blob.length < p + 4 → scanEnd blob p = p) ∧
    ((∀ q, p ≤ q → q + 4 ≤ blob.length →
        ¬(blob.getD q 0 = 0 ∧ blob.getD (q + 1) 0 = 0)) →
      scanEnd blob p = max p (blob.length - 3)) ∧
    (∀ idx fuel, blob.length < p + 4 → genTablesF fuel blob p idx = []) := by
  refine ⟨?_, ?_, ?_, ?_, ?_⟩
  · intro q hq
    exact scanChecksF_le blob blob.length p q hq
  · intro h4 hz0 hz1
    obtain ⟨k, hk⟩ : ∃ k, blob.length = k + 1 := ⟨blob.length - 1, by omega⟩
    show scanEndF blob.length blob p = p + 2
    rw [hk, scanEndF_succ, if_pos h4, if_pos ⟨hz0, hz1⟩]
  · intro h4
    exact scanEndF_stop blob blob.length p h4
  · intro hno
    exact scanEndF_no_term blob blob.length p (by omega) hno
  · intro idx fuel h4
    cases fuel with
    | zero => rfl
    | succ fuel => rw [genTablesF_succ, if_neg (by omega)]

/-- Witness for C6: the pair-position bound on the two-structure blob, the
terminator advance on the same blob, the boundary stop and residue
exclusion on the end-of-table blob, and the no-terminator end on a blob of
fives. -/
theorem c6_witness :
    4 + 4 ≤ bTwo.length ∧
      scanEnd bTwo 4 = 4 + 2 ∧
      scanEnd bEot 4 = 4 ∧
      scanEnd bFives 0 = max 0 (bFives.length - 3) ∧
      genTablesF 1 bEot 4 0 = [] :=
  ⟨(c6_trailing_scan bTwo 4).1 4 (by decide),
   (c6_trailing_scan bTwo 4).2.1 (by decide) (by decide) (by decide),
   (c6_trailing_scan bEot 4).2.2.1 (by decide),
   (c6_trailing_scan bFives 0).2.2.2.1
     (fun q _ hq4 => by
       have hq3 : q ≤ 3 := by
         have : bFives.length = 7 := by decide
         omega
       interval_cases q <;> decide),
   (c6_trailing_scan bEot 4).2.2.2.2 0 1 (by decide)⟩

/-- Counterexample to claim C7: on the blob 1,0,0,0 the decoder emits an
entry of size 1, so the cursor advances by only 1 byte, not at least 4. -/
theorem c7_counterexample :
    ¬(∀ e ∈ genSMBIOSTables bShort, 4 ≤ e.size) := by decide

/-- Claim C7 as amended: the decode always terminates (it is a total
function of the blob); every emitted entry consumes at least 1 byte (not 4),
and the number of emitted entries is bounded by the blob length. -/
theorem c7_amended_progress (blob : Blob) :
    (∀ e ∈ genSMBIOSTables blob, 1 ≤ e.size) ∧
      (genSMBIOSTables blob).length ≤ blob.length := by
  constructor
  · intro e he
    exact (genTablesF_entry_props blob blob.length 0 0 e he).2.2.1
  · show (genTablesF blob.length blob 0 0).length ≤ blob.length
    have := genTablesF_length blob blob.length 0 0
    omega

/-- Witness for C7 (amended): the single entry of the 1,0,0,0 blob. -/
theorem c7_witness :
    1 ≤ ((genSMBIOSTables bShort).getD 0 default).size :=
  (c7_amended_progress bShort).1 ((genSMBIOSTables bShort).getD 0 default)
    (by decide)

/-- Claim C8: decoding the same blob is deterministic: two invocations, even
into different pre-existing result vectors, append the same entry sequence,
identical entry by entry, including identical md5 fingerprint strings. -/
theorem c8_deterministic (blob : Blob) (acc₁ acc₂ : List DecodedEntry) :
    (genSMBIOSTablesInto blob acc₁).drop acc₁.length =
      (genSMBIOSTablesInto blob acc₂).drop acc₂.length ∧
    ∀ i,
      (((genSMBIOSTablesInto blob acc₁).drop acc₁.length).getD i default).md5 =
        (((genSMBIOSTablesInto blob acc₂).drop acc₂.length).getD i default).md5 := by
  have h1 : (genSMBIOSTablesInto blob acc₁).drop acc₁.length =
      genSMBIOSTables blob := by
    show (genTablesIntoF blob.length blob 0 0 acc₁).drop acc₁.length = _
    rw [genTablesIntoF_eq, List.drop_left]
    rfl
  have h2 : (genSMBIOSTablesInto blob acc₂).drop acc₂.length =
      genSMBIOSTables blob := by
    show (genTablesIntoF blob.length blob 0 0 acc₂).drop acc₂.length = _
    rw [genTablesIntoF_eq, List.drop_left]
    rfl
  exact ⟨by rw [h1, h2], fun i => by rw [h1, h2]⟩

/-- Claim C9: an emitted entry carries a description exactly when its type
code is a key of the fixed registry; types 0, 4, 17, 127 resolve to their
documented strings, and an entry of unregistered type 200 carries none. -/
theorem c9_description_registry :
    (∀ (blob : Blob), ∀ e ∈ genSMBIOSTables blob,
        e.description.isSome = true ↔
          e.type ∈ kSMBIOSTypeDescriptions.map Prod.fst) ∧
      descLookup 0 = some "BIOS Information" ∧
      descLookup 4 = some "Processor Information" ∧
      descLookup 17 = some "Memory Device" ∧
      descLookup 127 = some "End-of-Table" ∧
      (genSMBIOSTables bUnreg).length = 1 ∧
      ((genSMBIOSTables bUnreg).getD 0 default).description = none := by
  refine ⟨?_, by decide, by decide, by decide, by decide, by decide, by decide⟩
  intro blob e he
  have hd := (genTablesF_entry_props blob blob.length 0 0 e he).2.2.2
  rw [hd]
  show ((kSMBIOSTypeDescriptions.find?
      (fun p => p.1 == e.type)).map (fun p => p.2)).isSome = true ↔ _
  exact lookup_isSome e.type kSMBIOSTypeDescriptions

/-- Witness for C9: the end-of-table entry of the test-vector blob. -/
theorem c9_witness :
    ((genSMBIOSTables bEot).getD 0 default).description.isSome = true ↔
      ((genSMBIOSTables bEot).getD 0 default).type ∈
        kSMBIOSTypeDescriptions.map Prod.fst :=
  c9_description_registry.1 bEot ((genSMBIOSTables bEot).getD 0 default)
    (by decide)

/-- Claim C10: total_size ≥ header_size holds unconditionally — the scan
starts at offset + formatted_length and never moves the cursor backward —
and the iterator does not reject a header declaring formatted_length below
4: on the all-zero blob it still emits entries (with header_size 0). -/
theorem c10_size_ge_header_unconditional :
    (∀ (blob : Blob), ∀ e ∈ genSMBIOSTables blob, e.header_size ≤ e.size) ∧
      (genSMBIOSTables bZeros).length = 2 ∧
      ((genSMBIOSTables bZeros).getD 0 default).header_size = 0 ∧
      ((genSMBIOSTables bZeros).getD 0 default).size = 2 := by
  refine ⟨?_, by decide, by decide, by decide⟩
  intro blob e he
  exact (genTablesF_entry_props blob blob.length 0 0 e he).2.1

/-- Witness for C10: the entry of the 1,0,0,0 blob. -/
theorem c10_witness :
    ((genSMBIOSTables bShort).getD 0 default).header_size ≤
      ((genSMBIOSTables bShort).getD 0 default).size :=
  c10_size_ge_header_unconditional.1 bShort
    ((genSMBIOSTables bShort).getD 0 default) (by decide)

end SMBIOS
